import Mathlib

/-!
# Verification of the dotnope environment-variable firewall

A shallow embedding, in Lean 4, of the core of the `dotnope` package:

* `lib/preload-generator.js` — generation of the `DOTNOPE_POLICY` native
  allow-set from the whitelist configuration (`generatePolicy`);
* `lib/proxy.js` — the mediating `Proxy` traps around `process.env`
  (`createEnvProxy`, `restore`, and the per-operation trap handlers);
* `lib/native-bridge.js` — native addon integrity verification and loading
  (`verifyAddonIntegrity`, `loadNativeAddon`, `isNativeAvailable`);
* `lib/stack-parser.js` — caller identification from stack frames
  (`extractPackageName`, `getCallingPackageJS`, `getFormattedStack`).

JavaScript objects are modelled as association lists, JS exceptions as
`Except`, module-level mutable state as explicit state records threaded
through the functions, and filesystem / V8 effects as explicit oracle
parameters.  Definitions marked "Modelled from the spec" stand for code of
the repository (`lib/dotnope.js`) that is referenced but not part of the
analysed sources; they follow the specification's wording.
-/

namespace Dotnope

/-! ## Whitelist configuration and `generatePolicy` (lib/preload-generator.js)

A per-package entry of the `environmentWhitelist` configuration.  The source
reads the fields `allowed`, `canWrite` and `canDelete` (a missing field is
the empty list, matching the `packageConfig.allowed || []` normalization of
`generatePolicyFromPackageJson`). -/
structure PackageConfig where
  allowed : List String := []
  canWrite : List String := []
  canDelete : List String := []
deriving DecidableEq, Repr

/-- A whitelist configuration: the entries of the configuration object in
iteration order (`Object.entries(config)` preserves key insertion order). -/
abbrev WhitelistConfig := List (String × PackageConfig)

/-- One `for (const envVar of vars)` loop body of `generatePolicy`
(lib/preload-generator.js:30-37 and 42-47): each variable is checked against
the wildcard (`*` aborts the whole computation, returning the wildcard
policy, modelled as `none`) and otherwise added to the `Set` of collected
variables (modelled as an append-if-absent list). -/
def addSetVars (acc : List String) : List String → Option (List String)
  | [] => some acc
  | v :: rest =>
    if v = "*" then none
    else addSetVars (if acc.contains v then acc else acc ++ [v]) rest

/-- The per-package part of `generatePolicy` (lib/preload-generator.js:28-48):
the `allowed` variables are collected, then the `canWrite` variables
("they're also readable").  The source does not read `canDelete`. -/
def collectPackageVars (acc : List String) (pc : PackageConfig) : Option (List String) :=
  match addSetVars acc pc.allowed with
  | none => none
  | some a => addSetVars a pc.canWrite

/-- The `for (const [packageName, packageConfig] of Object.entries(config))`
loop of `generatePolicy` (lib/preload-generator.js:22-49), skipping the
reserved `__options__` entry. -/
def collectConfigVars (acc : List String) : WhitelistConfig → Option (List String)
  | [] => some acc
  | (name, pc) :: rest =>
    if name = "__options__" then collectConfigVars acc rest
    else
      match collectPackageVars acc pc with
      | none => none
      | some a => collectConfigVars a rest

/-- Lexicographic code-point comparison of character lists: the order under
which the JS default `Array.prototype.sort` comparator sorts strings.  (JS
compares UTF-16 code units; the embedding represents a string as its list of
Unicode scalars.) -/
def charsLe : List Char → List Char → Bool
  | [], _ => true
  | _ :: _, [] => false
  | a :: as, b :: bs =>
    if a < b then true
    else if b < a then false
    else charsLe as bs

/-- The string comparator of the JS default sort. -/
def jsLeStr (a b : String) : Bool := charsLe a.data b.data

/-- Embeds `[...allowedVars].sort()` (lib/preload-generator.js:52). -/
def sortStrings (l : List String) : List String := l.mergeSort jsLeStr

/-- Embeds `generatePolicy(config)` (lib/preload-generator.js:18-53): the wildcard
short-circuit returns `"*"`; otherwise the collected variables are sorted
(`[...allowedVars].sort()`) and joined with commas (`.join(',')`). -/
def generatePolicy (config : WhitelistConfig) : String :=
  match collectConfigVars [] config with
  | none => "*"
  | some vars => String.intercalate "," (sortStrings vars)

/-- Modelled from the spec: the runtime-level read check of the decision
engine (`lib/dotnope.js`, which is not among the analysed source files).
Per §3 and §4.1 of the specification, `canWrite` and `canDelete` also grant
read, and `*` in any set short-circuits membership to true. -/
def mayReadSpec (pc : PackageConfig) (v : String) : Bool :=
  pc.allowed.contains v || pc.canWrite.contains v || pc.canDelete.contains v ||
  pc.allowed.contains "*" || pc.canWrite.contains "*" || pc.canDelete.contains "*"

/-! ### Canonical form of `generatePolicy`, for the order-independence claim -/

/-- A package entry triggers the wildcard short-circuit of `generatePolicy`
iff `*` occurs in its `allowed` or `canWrite` list (the source never reads
`canDelete`). -/
def pkgHasWildcard (pc : PackageConfig) : Bool :=
  pc.allowed.contains "*" || pc.canWrite.contains "*"

/-- A configuration produces the wildcard policy iff some non-`__options__`
entry has a wildcard. -/
def configHasWildcard (config : WhitelistConfig) : Bool :=
  config.any (fun e => e.1 ≠ "__options__" && pkgHasWildcard e.2)

/-- The set of variables `generatePolicy` collects from one package. -/
def pkgVars (pc : PackageConfig) : Finset String :=
  pc.allowed.toFinset ∪ pc.canWrite.toFinset

/-- The set of variables `generatePolicy` collects from a configuration. -/
def configVars : WhitelistConfig → Finset String
  | [] => ∅
  | (name, pc) :: rest =>
    (if name = "__options__" then ∅ else pkgVars pc) ∪ configVars rest

theorem addSetVars_eq_none_iff (acc : List String) (vars : List String) :
    addSetVars acc vars = none ↔ "*" ∈ vars := by
  induction vars generalizing acc with
  | nil => simp [addSetVars]
  | cons v rest ih =>
    simp only [addSetVars, List.mem_cons]
    by_cases h : v = "*"
    · simp [h]
    · rw [if_neg h, ih]
      constructor
      · exact Or.inr
      · rintro (he | he)
        · exact absurd he.symm h
        · exact he

theorem addSetVars_some (acc out : List String) (vars : List String)
    (h : addSetVars acc vars = some out) :
    out.toFinset = acc.toFinset ∪ vars.toFinset ∧ (acc.Nodup → out.Nodup) := by
  induction vars generalizing acc with
  | nil =>
    simp only [addSetVars, Option.some.injEq] at h
    subst h
    simp
  | cons v rest ih =>
    simp only [addSetVars] at h
    by_cases hv : v = "*"
    · simp [hv] at h
    · simp only [if_neg hv] at h
      rcases ih _ h with ⟨hfin, hnd⟩
      constructor
      · rw [hfin]
        by_cases hc : acc.contains v
        · simp only [if_pos hc]
          have : v ∈ acc := by simpa using hc
          ext x
          simp only [Finset.mem_union, List.mem_toFinset, List.mem_cons]
          constructor
          · rintro (hx | hx)
            · exact Or.inl hx
            · exact Or.inr (Or.inr hx)
          · rintro (hx | hx | hx)
            · exact Or.inl hx
            · exact Or.inl (hx ▸ this)
            · exact Or.inr hx
        · simp only [if_neg hc]
          ext x
          simp only [Finset.mem_union, List.mem_toFinset, List.mem_append,
            List.mem_singleton, List.mem_cons]
          tauto
      · intro hacc
        apply hnd
        split
        · exact hacc
        · next hc =>
          have hv' : v ∉ acc := by simpa using hc
          refine List.Nodup.append hacc (List.nodup_singleton v) ?_
          intro x hx hx'
          rw [List.mem_singleton] at hx'
          exact hv' (hx' ▸ hx)

theorem collectPackageVars_eq_none_iff (acc : List String) (pc : PackageConfig) :
    collectPackageVars acc pc = none ↔ pkgHasWildcard pc = true := by
  unfold collectPackageVars pkgHasWildcard
  cases h : addSetVars acc pc.allowed with
  | none =>
    have := (addSetVars_eq_none_iff acc pc.allowed).1 h
    simp [this]
  | some a =>
    have hs : "*" ∉ pc.allowed := by
      intro hmem
      rw [← addSetVars_eq_none_iff acc pc.allowed] at hmem
      simp [h] at hmem
    simp [addSetVars_eq_none_iff, hs]

theorem collectPackageVars_some (acc out : List String) (pc : PackageConfig)
    (h : collectPackageVars acc pc = some out) :
    out.toFinset = acc.toFinset ∪ pkgVars pc ∧ (acc.Nodup → out.Nodup) := by
  unfold collectPackageVars at h
  cases ha : addSetVars acc pc.allowed with
  | none => simp [ha] at h
  | some a =>
    rw [ha] at h
    rcases addSetVars_some acc a pc.allowed ha with ⟨hfa, hna⟩
    rcases addSetVars_some a out pc.canWrite h with ⟨hfw, hnw⟩
    refine ⟨?_, fun hacc => hnw (hna hacc)⟩
    rw [hfw, hfa, pkgVars, Finset.union_assoc]

theorem collectConfigVars_eq_none_iff (acc : List String) (config : WhitelistConfig) :
    collectConfigVars acc config = none ↔ configHasWildcard config = true := by
  induction config generalizing acc with
  | nil => simp [collectConfigVars, configHasWildcard]
  | cons e rest ih =>
    obtain ⟨name, pc⟩ := e
    simp only [collectConfigVars, configHasWildcard, List.any_cons]
    by_cases hn : name = "__options__"
    · simp [hn, ih, configHasWildcard]
    · simp only [if_neg hn]
      cases hp : collectPackageVars acc pc with
      | none =>
        have := (collectPackageVars_eq_none_iff acc pc).1 hp
        simp [hn, this]
      | some a =>
        have : pkgHasWildcard pc = false := by
          by_contra hw
          have hw' : pkgHasWildcard pc = true := by
            cases h : pkgHasWildcard pc
            · exact absurd h hw
            · rfl
          rw [← collectPackageVars_eq_none_iff acc pc] at hw'
          simp [hp] at hw'
        simp [hn, this, ih, configHasWildcard]

theorem collectConfigVars_some (acc out : List String) (config : WhitelistConfig)
    (h : collectConfigVars acc config = some out) :
    out.toFinset = acc.toFinset ∪ configVars config ∧ (acc.Nodup → out.Nodup) := by
  induction config generalizing acc with
  | nil =>
    simp only [collectConfigVars, Option.some.injEq] at h
    subst h
    simp [configVars]
  | cons e rest ih =>
    obtain ⟨name, pc⟩ := e
    simp only [collectConfigVars] at h
    by_cases hn : name = "__options__"
    · rw [if_pos hn] at h
      rcases ih _ h with ⟨hf, hn'⟩
      refine ⟨?_, hn'⟩
      rw [hf]
      simp [configVars, hn]
    · rw [if_neg hn] at h
      cases hp : collectPackageVars acc pc with
      | none => simp [hp] at h
      | some a =>
        rw [hp] at h
        rcases collectPackageVars_some acc a pc hp with ⟨hfa, hna⟩
        rcases ih _ h with ⟨hf, hn'⟩
        refine ⟨?_, fun hacc => hn' (hna hacc)⟩
        rw [hf, hfa]
        simp [configVars, hn, Finset.union_assoc]

/-! ### The JS sort order -/

/-- The propositional form of the JS string comparator. -/
def JsLeProp (a b : String) : Prop := jsLeStr a b = true

theorem charsLe_total : ∀ as bs : List Char, (charsLe as bs || charsLe bs as) = true := by
  intro as
  induction as with
  | nil => intro bs; simp [charsLe]
  | cons a as ih =>
    intro bs
    cases bs with
    | nil => simp [charsLe]
    | cons b bs =>
      simp only [charsLe]
      rcases lt_trichotomy a b with h | h | h
      · simp [h]
      · simp [h, lt_irrefl, ih bs]
      · simp [h, not_lt_of_gt h]

theorem charsLe_trans : ∀ as bs cs : List Char,
    charsLe as bs = true → charsLe bs cs = true → charsLe as cs = true := by
  intro as
  induction as with
  | nil => intro bs cs _ _; simp [charsLe]
  | cons a as ih =>
    intro bs cs hab hbc
    cases bs with
    | nil => simp [charsLe] at hab
    | cons b bs =>
      cases cs with
      | nil => simp [charsLe] at hbc
      | cons c cs =>
        simp only [charsLe] at hab hbc ⊢
        rcases lt_trichotomy a b with h₁ | h₁ | h₁
        · rcases lt_trichotomy b c with h₂ | h₂ | h₂
          · simp [lt_trans h₁ h₂]
          · simp [h₂ ▸ h₁]
          · rw [if_neg (lt_asymm h₂), if_pos h₂] at hbc
            simp at hbc
        · subst h₁
          rw [if_neg (lt_irrefl a), if_neg (lt_irrefl a)] at hab
          rcases lt_trichotomy a c with h₂ | h₂ | h₂
          · simp [h₂]
          · subst h₂
            rw [if_neg (lt_irrefl a), if_neg (lt_irrefl a)] at hbc ⊢
            exact ih _ _ hab hbc
          · rw [if_neg (lt_asymm h₂), if_pos h₂] at hbc
            simp at hbc
        · rw [if_neg (lt_asymm h₁), if_pos h₁] at hab
          simp at hab

theorem charsLe_antisymm : ∀ as bs : List Char,
    charsLe as bs = true → charsLe bs as = true → as = bs := by
  intro as
  induction as with
  | nil =>
    intro bs _ hba
    cases bs with
    | nil => rfl
    | cons b bs => simp [charsLe] at hba
  | cons a as ih =>
    intro bs hab hba
    cases bs with
    | nil => simp [charsLe] at hab
    | cons b bs =>
      simp only [charsLe] at hab hba
      rcases lt_trichotomy a b with h | h | h
      · rw [if_neg (lt_asymm h), if_pos h] at hba
        simp at hba
      · subst h
        rw [if_neg (lt_irrefl a), if_neg (lt_irrefl a)] at hab hba
        rw [ih _ hab hba]
      · rw [if_neg (lt_asymm h), if_pos h] at hab
        simp at hab

instance : IsAntisymm String JsLeProp where
  antisymm a b hab hba := by
    have h := charsLe_antisymm a.data b.data hab hba
    cases a
    cases b
    exact congrArg String.mk h

theorem sortStrings_perm (l : List String) : (sortStrings l).Perm l :=
  List.mergeSort_perm l jsLeStr

theorem sortStrings_sorted (l : List String) : (sortStrings l).Pairwise JsLeProp :=
  List.sorted_mergeSort
    (fun a b c => charsLe_trans a.data b.data c.data)
    (fun a b => charsLe_total a.data b.data) l

/-- A list permuted into sorted order is `sortStrings` of it. -/
theorem sortStrings_eq_of (l out : List String) (hperm : l.Perm out)
    (hs : out.Pairwise JsLeProp) : sortStrings l = out :=
  List.eq_of_perm_of_sorted ((sortStrings_perm l).trans hperm) (sortStrings_sorted l) hs

theorem perm_of_nodup_toFinset_eq (l₁ l₂ : List String)
    (h₁ : l₁.Nodup) (h₂ : l₂.Nodup) (h : l₁.toFinset = l₂.toFinset) : l₁.Perm l₂ := by
  rw [← List.toFinset_eq h₁, ← List.toFinset_eq h₂] at h
  exact Multiset.coe_eq_coe.mp (congrArg Finset.val h)

/-! ### Permutation invariance of the canonical pieces -/

theorem configVars_cons (e : String × PackageConfig) (rest : WhitelistConfig) :
    configVars (e :: rest) =
      (if e.1 = "__options__" then ∅ else pkgVars e.2) ∪ configVars rest := by
  obtain ⟨n, p⟩ := e
  rfl

theorem configHasWildcard_perm {c₁ c₂ : WhitelistConfig} (h : c₁.Perm c₂) :
    configHasWildcard c₁ = configHasWildcard c₂ := by
  rw [Bool.eq_iff_iff]
  simp only [configHasWildcard, List.any_eq_true]
  constructor
  · rintro ⟨x, hx, hp⟩
    exact ⟨x, h.mem_iff.mp hx, hp⟩
  · rintro ⟨x, hx, hp⟩
    exact ⟨x, h.mem_iff.mpr hx, hp⟩

theorem configVars_perm {c₁ c₂ : WhitelistConfig} (h : c₁.Perm c₂) :
    configVars c₁ = configVars c₂ := by
  induction h with
  | nil => rfl
  | cons x _ ih => rw [configVars_cons, configVars_cons, ih]
  | swap x y l =>
    rw [configVars_cons, configVars_cons, configVars_cons, configVars_cons,
      ← Finset.union_assoc, ← Finset.union_assoc,
      Finset.union_comm (if y.1 = "__options__" then ∅ else pkgVars y.2)]
  | trans _ _ ih₁ ih₂ => rw [ih₁, ih₂]

/-! ## Claims about `generatePolicy` -/

/-- C6: `generatePolicy` is order-independent: permuting the package
entries of a configuration yields the identical policy string; and the
non-wildcard output is the comma-separated join of a list sorted in the JS
sort order whose elements are exactly the variables collected from the
configuration. -/
theorem generatePolicy_order_independent :
    (∀ c₁ c₂ : WhitelistConfig, c₁.Perm c₂ → generatePolicy c₁ = generatePolicy c₂) ∧
    (∀ c : WhitelistConfig, configHasWildcard c = false →
      ∃ l : List String, l.Pairwise JsLeProp ∧ l.toFinset = configVars c ∧
        generatePolicy c = String.intercalate "," l) := by
  constructor
  · intro c₁ c₂ h
    unfold generatePolicy
    cases h₁ : collectConfigVars [] c₁ with
    | none =>
      have hw := (collectConfigVars_eq_none_iff [] c₁).1 h₁
      rw [configHasWildcard_perm h] at hw
      rw [(collectConfigVars_eq_none_iff [] c₂).2 hw]
    | some out₁ =>
      cases h₂ : collectConfigVars [] c₂ with
      | none =>
        have hw := (collectConfigVars_eq_none_iff [] c₂).1 h₂
        rw [← configHasWildcard_perm h] at hw
        rw [← collectConfigVars_eq_none_iff [] c₁, h₁] at hw
        simp at hw
      | some out₂ =>
        rcases collectConfigVars_some [] out₁ c₁ h₁ with ⟨hf₁, hn₁⟩
        rcases collectConfigVars_some [] out₂ c₂ h₂ with ⟨hf₂, hn₂⟩
        have hfe : out₁.toFinset = out₂.toFinset := by
          rw [hf₁, hf₂, configVars_perm h]
        have hp := perm_of_nodup_toFinset_eq out₁ out₂
          (hn₁ List.nodup_nil) (hn₂ List.nodup_nil) hfe
        show String.intercalate "," (sortStrings out₁) =
          String.intercalate "," (sortStrings out₂)
        rw [sortStrings_eq_of out₁ (sortStrings out₂)
          (hp.trans (sortStrings_perm out₂).symm) (sortStrings_sorted out₂)]
  · intro c hw
    cases h₁ : collectConfigVars [] c with
    | none =>
      have hc := (collectConfigVars_eq_none_iff [] c).1 h₁
      rw [hw] at hc
      exact absurd hc (by simp)
    | some out =>
      rcases collectConfigVars_some [] out c h₁ with ⟨hf, _⟩
      refine ⟨sortStrings out, sortStrings_sorted out, ?_, ?_⟩
      · ext x
        rw [List.mem_toFinset, (sortStrings_perm out).mem_iff, ← List.mem_toFinset, hf]
        simp
      · unfold generatePolicy
        rw [h₁]

/-- Witness for C6 at a concrete configuration and a concrete permutation of
its entries. -/
theorem generatePolicy_order_independent_witness :
    generatePolicy [("a", { allowed := ["X", "Y"] }), ("b", { canWrite := ["Z"] })] =
      generatePolicy [("b", { canWrite := ["Z"] }), ("a", { allowed := ["X", "Y"] })] ∧
    ∃ l : List String, l.Pairwise JsLeProp ∧
      l.toFinset = configVars [("a", { allowed := ["X", "Y"] }), ("b", { canWrite := ["Z"] })] ∧
      generatePolicy [("a", { allowed := ["X", "Y"] }), ("b", { canWrite := ["Z"] })] =
        String.intercalate "," l :=
  ⟨generatePolicy_order_independent.1 _ _ (by decide),
   generatePolicy_order_independent.2 _ (by decide)⟩

/-- C1: the claim fails on the code: `generatePolicy` never reads the
`canDelete` set.  A variable granted only through `canDelete` — which per
the specification's runtime read semantics (`mayReadSpec`) is readable at
the runtime level — is absent from the generated native allow-set, and a
`*` appearing only in `canDelete` does not produce the wildcard policy. -/
theorem generatePolicy_omits_canDelete :
    generatePolicy [("p", { canDelete := ["D"] })] = "" ∧
    mayReadSpec { canDelete := ["D"] } "D" = true ∧
    generatePolicy [("q", { canDelete := ["*"] })] = "" ∧
    mayReadSpec { canDelete := ["*"] } "AWS_SECRET" = true := by
  have h₁ : collectConfigVars [] [("p", { canDelete := ["D"] })] = some [] := by decide
  have h₂ : collectConfigVars [] [("q", { canDelete := ["*"] })] = some [] := by decide
  refine ⟨?_, by decide, ?_, by decide⟩
  · unfold generatePolicy
    rw [h₁]
    simp only [sortStrings, List.mergeSort_nil]
    decide
  · unfold generatePolicy
    rw [h₂]
    simp only [sortStrings, List.mergeSort_nil]
    decide

/-! ## The runtime mediator (lib/proxy.js)

The proxy traps around `process.env`.  A property key is either a string or
a symbol; the underlying store keeps string-keyed and symbol-keyed slots.
The access-check callback `checkAccessFn` either returns (allow) or throws
(deny); it is modelled by a `deny` oracle, and its invocations are recorded
in a log so that "the access check is never invoked" is expressible. -/

/-- The operation names passed to `checkAccessFn` (`'read' | 'write' |
'delete'`, lib/proxy.js:20). -/
inductive EnvOp
  | read
  | write
  | del
deriving DecidableEq, Repr

/-- A JS property key: `typeof prop === 'string'` or a symbol. -/
inductive PropKey
  | str (s : String)
  | sym (id : Nat)
deriving DecidableEq, Repr

/-- Set a key in an association list (JS property assignment). -/
def assocSet {κ : Type} [DecidableEq κ] (l : List (κ × String)) (k : κ) (v : String) :
    List (κ × String) :=
  match l with
  | [] => [(k, v)]
  | (k', v') :: rest => if k' = k then (k, v) :: rest else (k', v') :: assocSet rest k v

/-- Look up a key in an association list. -/
def assocGet {κ : Type} [DecidableEq κ] (l : List (κ × String)) (k : κ) : Option String :=
  match l with
  | [] => none
  | (k', v') :: rest => if k' = k then some v' else assocGet rest k

/-- Remove a key from an association list (JS `delete`). -/
def assocDel {κ : Type} [DecidableEq κ] (l : List (κ × String)) (k : κ) :
    List (κ × String) :=
  match l with
  | [] => []
  | (k', v') :: rest => if k' = k then assocDel rest k else (k', v') :: assocDel rest k

/-- The underlying environment object (the proxy `target`,
i.e. `originalEnv`). -/
structure EnvStore where
  strs : List (String × String) := []
  syms : List (Nat × String) := []
deriving DecidableEq, Repr

/-- Embeds `target[prop]` / `Reflect.get`. -/
def EnvStore.get (e : EnvStore) : PropKey → Option String
  | .str s => assocGet e.strs s
  | .sym i => assocGet e.syms i

/-- Embeds `target[prop] = value`. -/
def EnvStore.set (e : EnvStore) (k : PropKey) (v : String) : EnvStore :=
  match k with
  | .str s => { e with strs := assocSet e.strs s v }
  | .sym i => { e with syms := assocSet e.syms i v }

/-- Embeds `delete target[prop]`. -/
def EnvStore.del (e : EnvStore) (k : PropKey) : EnvStore :=
  match k with
  | .str s => { e with strs := assocDel e.strs s }
  | .sym i => { e with syms := assocDel e.syms i }

/-- Embeds `prop in target`. -/
def EnvStore.hasKey (e : EnvStore) (k : PropKey) : Bool :=
  (e.get k).isSome

/-- The module-level flags consulted by the traps: `isEnabled`,
`checkAccessFn !== null`, and the `proxyOptions` record
(lib/proxy.js:5-8, 32-36). -/
structure ProxyFlags where
  enabled : Bool
  hasCheckFn : Bool
  protectWrites : Bool
  protectDeletes : Bool
deriving DecidableEq, Repr

/-- The state a trap invocation runs in: the underlying store and the log of
`checkAccessFn` invocations made so far. -/
structure TrapState where
  store : EnvStore
  checkLog : List (String × EnvOp) := []
deriving DecidableEq, Repr

/-- The deny oracle: `deny v op = true` means `checkAccessFn(v, op)` throws.
The thrown error is opaque (`Except Unit`). -/
abbrev DenyFn := String → EnvOp → Bool

/-- A call `checkAccessFn(v, op)`: it is recorded in the log and either
throws or returns. -/
def checkAccess (deny : DenyFn) (v : String) (op : EnvOp) (s : TrapState) :
    Except Unit Unit × TrapState :=
  let s' : TrapState := { s with checkLog := s.checkLog ++ [(v, op)] }
  (if deny v op then .error () else .ok (), s')

/-- The `get` trap (lib/proxy.js:40-57): symbols (and the internal
`'inspect'` name) are forwarded without a check; otherwise, when enforcement
is enabled and a check function is installed, `checkAccessFn(String(prop),
'read')` runs before `target[prop]` is read. -/
def getTrap (deny : DenyFn) (f : ProxyFlags) (k : PropKey) (s : TrapState) :
    Except Unit (Option String) × TrapState :=
  match k with
  | .sym i => (.ok (s.store.get (.sym i)), s)
  | .str p =>
    if p = "inspect" then (.ok (s.store.get k), s)
    else if f.enabled && f.hasCheckFn then
      match checkAccess deny p .read s with
      | (.error e, s') => (.error e, s')
      | (.ok _, s') => (.ok (s'.store.get k), s')
    else (.ok (s.store.get k), s)

/-- The `set` trap (lib/proxy.js:59-68): the write check runs — only for
string keys, and only when enabled with `protectWrites` — before
`target[prop] = value` is performed; the trap then reports success. -/
def setTrap (deny : DenyFn) (f : ProxyFlags) (k : PropKey) (v : String) (s : TrapState) :
    Except Unit Bool × TrapState :=
  let checked : Except Unit Unit × TrapState :=
    if f.enabled && f.hasCheckFn && f.protectWrites then
      match k with
      | .str p => checkAccess deny p .write s
      | .sym _ => (.ok (), s)
    else (.ok (), s)
  match checked with
  | (.error e, s') => (.error e, s')
  | (.ok _, s') => (.ok true, { s' with store := s'.store.set k v })

/-- The `has` trap (lib/proxy.js:70-76): the read check runs for string keys
when enabled, before `prop in target` is evaluated. -/
def hasTrap (deny : DenyFn) (f : ProxyFlags) (k : PropKey) (s : TrapState) :
    Except Unit Bool × TrapState :=
  match k with
  | .sym i => (.ok (s.store.hasKey (.sym i)), s)
  | .str p =>
    if f.enabled && f.hasCheckFn then
      match checkAccess deny p .read s with
      | (.error e, s') => (.error e, s')
      | (.ok _, s') => (.ok (s'.store.hasKey k), s')
    else (.ok (s.store.hasKey k), s)

/-- The `deleteProperty` trap (lib/proxy.js:78-87): the delete check runs —
only for string keys, and only when enabled with `protectDeletes` — before
`delete target[prop]` is performed. -/
def deleteTrap (deny : DenyFn) (f : ProxyFlags) (k : PropKey) (s : TrapState) :
    Except Unit Bool × TrapState :=
  let checked : Except Unit Unit × TrapState :=
    if f.enabled && f.hasCheckFn && f.protectDeletes then
      match k with
      | .str p => checkAccess deny p .del s
      | .sym _ => (.ok (), s)
    else (.ok (), s)
  match checked with
  | (.error e, s') => (.error e, s')
  | (.ok _, s') => (.ok true, { s' with store := s'.store.del k })

/-- The `getOwnPropertyDescriptor` trap (lib/proxy.js:102-108): the read
check runs for string keys when enabled, before the descriptor is fetched
(the descriptor is modelled by the slot's value). -/
def getOwnPropertyDescriptorTrap (deny : DenyFn) (f : ProxyFlags) (k : PropKey)
    (s : TrapState) : Except Unit (Option String) × TrapState :=
  match k with
  | .sym i => (.ok (s.store.get (.sym i)), s)
  | .str p =>
    if f.enabled && f.hasCheckFn then
      match checkAccess deny p .read s with
      | (.error e, s') => (.error e, s')
      | (.ok _, s') => (.ok (s'.store.get k), s')
    else (.ok (s.store.get k), s)

/-- The `defineProperty` trap (lib/proxy.js:110-118): "it's effectively a
write" — the write check runs for string keys when enabled with
`protectWrites`, before `Object.defineProperty` runs (modelled as setting
the slot to the descriptor's value). -/
def definePropertyTrap (deny : DenyFn) (f : ProxyFlags) (k : PropKey) (v : String)
    (s : TrapState) : Except Unit Bool × TrapState :=
  let checked : Except Unit Unit × TrapState :=
    if f.enabled && f.hasCheckFn && f.protectWrites then
      match k with
      | .str p => checkAccess deny p .write s
      | .sym _ => (.ok (), s)
    else (.ok (), s)
  match checked with
  | (.error e, s') => (.error e, s')
  | (.ok _, s') => (.ok true, { s' with store := s'.store.set k v })

/-- C8: symbol-keyed property operations are forwarded to the
underlying store with the access check never invoked: for every deny
oracle, flag setting and state, each trap applied to a symbol key leaves
the check-invocation log unchanged, cannot raise, and performs exactly the
underlying operation. -/
theorem symbol_ops_bypass_check (deny : DenyFn) (f : ProxyFlags) (i : Nat)
    (v : String) (s : TrapState) :
    getTrap deny f (.sym i) s = (.ok (s.store.get (.sym i)), s) ∧
    setTrap deny f (.sym i) v s = (.ok true, { s with store := s.store.set (.sym i) v }) ∧
    hasTrap deny f (.sym i) s = (.ok (s.store.hasKey (.sym i)), s) ∧
    deleteTrap deny f (.sym i) s = (.ok true, { s with store := s.store.del (.sym i) }) ∧
    getOwnPropertyDescriptorTrap deny f (.sym i) s = (.ok (s.store.get (.sym i)), s) ∧
    definePropertyTrap deny f (.sym i) v s =
      (.ok true, { s with store := s.store.set (.sym i) v }) := by
  refine ⟨rfl, ?_, rfl, ?_, rfl, ?_⟩
  · by_cases hc : f.enabled && f.hasCheckFn && f.protectWrites <;> simp [setTrap, hc]
  · by_cases hc : f.enabled && f.hasCheckFn && f.protectDeletes <;> simp [deleteTrap, hc]
  · by_cases hc : f.enabled && f.hasCheckFn && f.protectWrites <;>
      simp [definePropertyTrap, hc]

/-- C2: a denied string-keyed write or delete raises before the store is
touched: whenever the `set` or `deleteProperty` trap ends in the thrown
error, the underlying store is exactly the one the trap started from. -/
theorem denied_write_delete_leaves_store (deny : DenyFn) (f : ProxyFlags)
    (k : PropKey) (v : String) (s : TrapState) :
    ((setTrap deny f k v s).1 = .error () → (setTrap deny f k v s).2.store = s.store) ∧
    ((deleteTrap deny f k s).1 = .error () → (deleteTrap deny f k s).2.store = s.store) := by
  constructor
  · by_cases hc : f.enabled && f.hasCheckFn && f.protectWrites
    · cases k with
      | sym i =>
        intro h
        simp [setTrap, hc] at h
      | str p =>
        intro h
        by_cases hd : deny p .write
        · simp [setTrap, hc, checkAccess, hd]
        · simp [setTrap, hc, checkAccess, hd] at h
    · intro h
      simp [setTrap, hc] at h
  · by_cases hc : f.enabled && f.hasCheckFn && f.protectDeletes
    · cases k with
      | sym i =>
        intro h
        simp [deleteTrap, hc] at h
      | str p =>
        intro h
        by_cases hd : deny p .del
        · simp [deleteTrap, hc, checkAccess, hd]
        · simp [deleteTrap, hc, checkAccess, hd] at h
    · intro h
      simp [deleteTrap, hc] at h

/-- Witness for C2: a concrete denied write and a concrete denied delete
leave the concrete store unchanged. -/
theorem denied_write_delete_leaves_store_witness :
    (setTrap (fun _ _ => true) ⟨true, true, true, true⟩ (.str "AWS_SECRET") "x"
        { store := { strs := [("AWS_SECRET", "s3cr3t")] } }).2.store =
      { strs := [("AWS_SECRET", "s3cr3t")], syms := [] } ∧
    (deleteTrap (fun _ _ => true) ⟨true, true, true, true⟩ (.str "AWS_SECRET")
        { store := { strs := [("AWS_SECRET", "s3cr3t")] } }).2.store =
      { strs := [("AWS_SECRET", "s3cr3t")], syms := [] } :=
  ⟨(denied_write_delete_leaves_store (fun _ _ => true) ⟨true, true, true, true⟩
      (.str "AWS_SECRET") "x" { store := { strs := [("AWS_SECRET", "s3cr3t")] } }).1
      rfl,
   (denied_write_delete_leaves_store (fun _ _ => true) ⟨true, true, true, true⟩
      (.str "AWS_SECRET") "x" { store := { strs := [("AWS_SECRET", "s3cr3t")] } }).2
      rfl⟩

/-- C9: `defineProperty` with a string key is mediated as a write: while
enforcement is enabled with `protectWrites`, the trap invokes the access
check with operation `write`, a denial raises with the store untouched, and
only an allowed call defines the property. -/
theorem defineProperty_checked_as_write (deny : DenyFn) (f : ProxyFlags)
    (p v : String) (s : TrapState)
    (he : f.enabled = true) (hcf : f.hasCheckFn = true) (hw : f.protectWrites = true) :
    (definePropertyTrap deny f (.str p) v s).2.checkLog = s.checkLog ++ [(p, .write)] ∧
    (deny p .write = true →
      definePropertyTrap deny f (.str p) v s =
        (.error (), { s with checkLog := s.checkLog ++ [(p, .write)] })) ∧
    (deny p .write = false →
      definePropertyTrap deny f (.str p) v s =
        (.ok true, { store := s.store.set (.str p) v,
                     checkLog := s.checkLog ++ [(p, .write)] })) := by
  by_cases hd : deny p .write <;>
    simp [definePropertyTrap, he, hcf, hw, checkAccess, hd]

/-- Witness for C9: a concrete denied `defineProperty` logs the write check
and raises with the store untouched. -/
theorem defineProperty_checked_as_write_witness :
    (definePropertyTrap (fun _ _ => true) ⟨true, true, true, true⟩ (.str "SECRET") "v"
        { store := {} }).2.checkLog = [("SECRET", .write)] ∧
    definePropertyTrap (fun _ _ => true) ⟨true, true, true, true⟩ (.str "SECRET") "v"
        { store := {} } =
      (.error (), { store := {}, checkLog := [("SECRET", .write)] }) :=
  ⟨(defineProperty_checked_as_write (fun _ _ => true) ⟨true, true, true, true⟩
      "SECRET" "v" { store := {} } rfl rfl rfl).1,
   (defineProperty_checked_as_write (fun _ _ => true) ⟨true, true, true, true⟩
      "SECRET" "v" { store := {} } rfl rfl rfl).2.1 rfl⟩

/-! ### Installation and teardown (lib/proxy.js:26-134, 139-141, 153-162)

`process.env` references an object; objects carry numeric identities here,
with fresh identities drawn from a counter, so that "process.env is again
the original store" is expressible as identity of the referenced object. -/

/-- The module-level state of lib/proxy.js relevant to installation
(`originalEnv`, `proxyEnv`, `isEnabled`) together with the process-wide
`process.env` reference.  (`checkAccessFn`, `filterKeysFn` and
`proxyOptions`, also cleared by `restore()`, only matter to the traps and
are modelled separately by `ProxyFlags`.) -/
structure ProxyWorld where
  processEnv : Nat
  nextId : Nat
  originalEnv : Option Nat := none
  proxyEnv : Option Nat := none
  enabledW : Bool := false
deriving DecidableEq, Repr

/-- The error thrown by `createEnvProxy`:
`'strictenv: Proxy already created'`. -/
inductive CreateErr
  | alreadyCreated
deriving DecidableEq, Repr

/-- Embeds `createEnvProxy` (lib/proxy.js:26-134): throws if a proxy already exists
(`if (proxyEnv) throw ...`); otherwise captures `originalEnv = process.env`,
creates the proxy object, and publishes it as `process.env`. -/
def createEnvProxy (w : ProxyWorld) : Except CreateErr ProxyWorld :=
  if w.proxyEnv.isSome then .error .alreadyCreated
  else
    .ok { processEnv := w.nextId
          nextId := w.nextId + 1
          originalEnv := some w.processEnv
          proxyEnv := some w.nextId
          enabledW := w.enabledW }

/-- Embeds `enable()` (lib/proxy.js:139-141). -/
def enableProxy (w : ProxyWorld) : ProxyWorld := { w with enabledW := true }

/-- Embeds `restore()` (lib/proxy.js:153-162): when an original store was captured,
republishes it as `process.env`, disables enforcement and clears `proxyEnv`
(the source leaves `originalEnv` itself set). -/
def restoreProxy (w : ProxyWorld) : ProxyWorld :=
  match w.originalEnv with
  | some orig => { w with processEnv := orig, enabledW := false, proxyEnv := none }
  | none => w

/-- The control handle returned at installation. -/
structure MediatorHandle where
  token : String
deriving DecidableEq, Repr

/-- The error `ERR_DOTNOPE_ALREADY_INSTALLED`. -/
inductive InstallErr
  | alreadyInstalled
deriving DecidableEq, Repr

/-- The error `ERR_DOTNOPE_INVALID_TOKEN`. -/
inductive DisableErr
  | invalidToken
deriving DecidableEq, Repr

/-- Modelled from the spec: `enableStrictEnv` of `lib/dotnope.js` (not under
src/) installs by creating the proxy and enabling enforcement, and returns
a handle bearing a freshly generated random token (the token value is a
parameter of the model). -/
def installMediator (tok : String) (w : ProxyWorld) :
    Except InstallErr (MediatorHandle × ProxyWorld) :=
  match createEnvProxy w with
  | .error _ => .error .alreadyInstalled
  | .ok w' => .ok (⟨tok⟩, enableProxy w')

/-- Modelled from the spec: `handle.disable(token)` of `lib/dotnope.js` (not
under src/) rejects any token other than the handle's with
`ERR_DOTNOPE_INVALID_TOKEN`, and on the correct token restores the original
`process.env` via `restore()`. -/
def disableMediator (h : MediatorHandle) (tok : String) (w : ProxyWorld) :
    Except DisableErr ProxyWorld :=
  if tok = h.token then .ok (restoreProxy w) else .error .invalidToken

/-- C7: install / teardown round-trip: installing while an installation
is active fails with an error; tearing down with the handle's token
republishes the pre-install store as `process.env`; and a subsequent
installation succeeds again. -/
theorem install_teardown_roundtrip (w : ProxyWorld) (tok tok₂ : String)
    (hfree : w.proxyEnv = none) :
    ∃ h w₁, installMediator tok w = .ok (h, w₁) ∧
      installMediator tok₂ w₁ = .error .alreadyInstalled ∧
      createEnvProxy w₁ = .error .alreadyCreated ∧
      ∃ w₂, disableMediator h h.token w₁ = .ok w₂ ∧
        w₂.processEnv = w.processEnv ∧
        ∃ h₂ w₃, installMediator tok₂ w₂ = .ok (h₂, w₃) := by
  obtain ⟨pe, ni, oe, px, en⟩ := w
  simp only at hfree
  subst hfree
  refine ⟨⟨tok⟩, ⟨ni, ni + 1, some pe, some ni, true⟩, ?_, ?_, ?_,
    ⟨pe, ni + 1, some pe, none, false⟩, ?_, rfl, ⟨tok₂⟩,
    ⟨ni + 1, ni + 2, some pe, some (ni + 1), true⟩, ?_⟩ <;>
    simp [installMediator, createEnvProxy, enableProxy, disableMediator, restoreProxy]

/-- Witness for C7 at a concrete world and concrete tokens. -/
theorem install_teardown_roundtrip_witness :
    ∃ h w₁, installMediator "token-a" ⟨0, 1, none, none, false⟩ = .ok (h, w₁) ∧
      installMediator "token-b" w₁ = .error .alreadyInstalled ∧
      createEnvProxy w₁ = .error .alreadyCreated ∧
      ∃ w₂, disableMediator h h.token w₁ = .ok w₂ ∧
        w₂.processEnv = (⟨0, 1, none, none, false⟩ : ProxyWorld).processEnv ∧
        ∃ h₂ w₃, installMediator "token-b" w₂ = .ok (h₂, w₃) :=
  install_teardown_roundtrip ⟨0, 1, none, none, false⟩ "token-a" "token-b" rfl

/-! ## Native addon integrity and loading (lib/native-bridge.js)

Filesystem and crypto effects are oracle inputs: whether the files exist,
what reading/parsing them yields (or whether it throws, `FsAttempt.throws`),
the computed digest of the addon file, its size, and whether `require` of
the addon (plus `native.initialize`) succeeds. -/

/-- The `addon` record of `addon-manifest.json` as read by
`verifyAddonIntegrity` (fields `algorithm`, `hash`, `size`). -/
structure AddonManifest where
  algorithm : Option String := none
  hash : String
  size : Nat
deriving DecidableEq, Repr

/-- Result of an effect that can throw (`fs.readFileSync`, `JSON.parse`,
`fs.statSync`). -/
inductive FsAttempt (α : Type)
  | ok (a : α)
  | throws (msg : String)
deriving DecidableEq, Repr

/-- The external world `loadNativeAddon` interacts with.  `computedHash`
stands for `crypto.createHash(manifest.addon.algorithm ||
'sha256').update(addonBuffer).digest('hex')`; `requireOk` covers both
`require(...)` of the addon and `native.initialize(...)`. -/
structure NativeEnvModel where
  addonExists : Bool
  manifestExists : Bool
  manifestRead : FsAttempt AddonManifest
  addonRead : FsAttempt Unit
  computedHash : String
  statSize : FsAttempt Nat
  requireOk : Bool

/-- The record `verifyAddonIntegrity` returns:
`{verified, warning, error}` (errors carry their message). -/
structure VerifyResult where
  verified : Bool
  warning : Option String
  error : Option String
deriving DecidableEq, Repr

/-- Embeds `verifyAddonIntegrity(addonPath)` (lib/native-bridge.js:25-92): a missing
manifest is warning-only; inside the `try`, a throw while reading/parsing
the manifest, reading the addon, or stat-ing it lands in the `catch`, which
is also warning-only; only an explicit hash mismatch or size mismatch
produces an `error`. -/
def verifyAddonIntegrity (m : NativeEnvModel) : VerifyResult :=
  if !m.manifestExists then
    { verified := false
      warning := some "No addon-manifest.json found. Addon integrity cannot be verified."
      error := none }
  else
    match m.manifestRead with
    | .throws msg =>
      { verified := false
        warning := some ("Could not verify addon integrity: " ++ msg)
        error := none }
    | .ok manifest =>
      match m.addonRead with
      | .throws msg =>
        { verified := false
          warning := some ("Could not verify addon integrity: " ++ msg)
          error := none }
      | .ok _ =>
        if m.computedHash ≠ manifest.hash then
          { verified := false
            warning := none
            error := some "Native addon integrity check failed!" }
        else
          match m.statSize with
          | .throws msg =>
            { verified := false
              warning := some ("Could not verify addon integrity: " ++ msg)
              error := none }
          | .ok sz =>
            if sz ≠ manifest.size then
              { verified := false
                warning := none
                error := some "Native addon size mismatch!" }
            else { verified := true, warning := none, error := none }

/-- The module-level state of lib/native-bridge.js (`native`,
`nativeAvailable`, `initializationError`, `integrityVerified`,
`integrityError`); `nativeLoaded` models `native !== null`. -/
structure BridgeState where
  nativeLoaded : Bool := false
  nativeAvailable : Bool := false
  initializationError : Option String := none
  integrityVerified : Bool := false
  integrityError : Option String := none
deriving DecidableEq, Repr

/-- The state at module load. -/
def initialBridgeState : BridgeState := {}

/-- Embeds `loadNativeAddon()` (lib/native-bridge.js:97-157): memoized on `native`
and `initializationError`; a missing addon file or a failing `require` set
`initializationError`; an integrity `error` refuses loading (the addon is
never `require`d) and records both `integrityError` and
`initializationError`; a warning-only verification continues loading. -/
def loadNativeAddon (m : NativeEnvModel) (st : BridgeState) : Bool × BridgeState :=
  if st.nativeLoaded || st.initializationError.isSome then
    (st.nativeAvailable, st)
  else if !m.addonExists then
    (false, { st with initializationError := some "Native addon not built"
                      nativeAvailable := false })
  else
    let r := verifyAddonIntegrity m
    let st₁ := { st with integrityVerified := r.verified }
    match r.error with
    | some e =>
      (false, { st₁ with integrityError := some e
                         initializationError := some e
                         nativeAvailable := false })
    | none =>
      if m.requireOk then
        (true, { st₁ with nativeLoaded := true, nativeAvailable := true })
      else
        (false, { st₁ with initializationError := some "require failed"
                           nativeLoaded := false
                           nativeAvailable := false })

/-- Embeds `isNativeAvailable()` (lib/native-bridge.js:162-167): retries the load
while `native === null` (the retry is itself cut off by the memoization on
`initializationError`), then reports `nativeAvailable`. -/
def isNativeAvailable (m : NativeEnvModel) (st : BridgeState) : Bool × BridgeState :=
  let st' := if st.nativeLoaded then st else (loadNativeAddon m st).2
  (st'.nativeAvailable, st')

/-- The record `getSecurityStatus()` returns (lib/native-bridge.js:321-328). -/
structure SecurityStatus where
  nativeAvailable : Bool
  integrityVerified : Bool
  hasIntegrityError : Bool
deriving DecidableEq, Repr

/-- Embeds `getSecurityStatus()` (lib/native-bridge.js:321-328). -/
def getSecurityStatus (st : BridgeState) : SecurityStatus :=
  { nativeAvailable := st.nativeAvailable
    integrityVerified := st.integrityVerified
    hasIntegrityError := st.integrityError.isSome }

/-- Modelled from the spec: the status surface of `lib/dotnope.js` (not
under src/) reports an integrity failure of the native addon under the
stable error code `ERR_DOTNOPE_INTEGRITY`. -/
def statusIntegrityCode (st : BridgeState) : Option String :=
  if st.integrityError.isSome then some "ERR_DOTNOPE_INTEGRITY" else none

/-- Which backend resolves the caller identity. -/
inductive CallerBackend
  | nativeFrame
  | asyncFallback (pkg : String)
  | jsFallback
deriving DecidableEq, Repr

/-- The backend-selection logic of `getCallingPackage` (lib/
stack-parser.js:85-120): the native path runs only when
`bridge.isNativeAvailable()`; a null native result falls back to the async
context, and everything else goes to `getCallingPackageJS`.  The native
result and async context are oracle inputs. -/
def getCallingPackageBackend (m : NativeEnvModel) (st : BridgeState)
    (nativeRes : Option Unit) (asyncCtx : Option String) :
    CallerBackend × BridgeState :=
  let avail := (isNativeAvailable m st).1
  let st' := (isNativeAvailable m st).2
  if avail then
    match nativeRes with
    | some _ => (.nativeFrame, st')
    | none =>
      match asyncCtx with
      | some ctx => if ctx ≠ "__main__" then (.asyncFallback ctx, st') else (.jsFallback, st')
      | none => (.jsFallback, st')
  else (.jsFallback, st')

/-- C3: an integrity refusal disables the native path for good: when the
computed hash differs from the manifest hash (or, with matching hashes, the
file size differs), loading is refused — the addon is never loaded,
`isNativeAvailable()` is false, the status carries the integrity error
(reported as `ERR_DOTNOPE_INTEGRITY`), and the bridge state is a fixpoint
under which every caller-identity resolution takes the JavaScript
fallback. -/
theorem integrity_refusal_disables_native (m : NativeEnvModel)
    (manifest : AddonManifest)
    (hex : m.addonExists = true) (hman : m.manifestExists = true)
    (hread : m.manifestRead = .ok manifest) (haddon : m.addonRead = .ok ())
    (hbad : m.computedHash ≠ manifest.hash ∨
      (m.computedHash = manifest.hash ∧
        ∃ sz, m.statSize = .ok sz ∧ sz ≠ manifest.size)) :
    (loadNativeAddon m initialBridgeState).1 = false ∧
    (loadNativeAddon m initialBridgeState).2.nativeLoaded = false ∧
    (loadNativeAddon m initialBridgeState).2.nativeAvailable = false ∧
    statusIntegrityCode (loadNativeAddon m initialBridgeState).2 =
      some "ERR_DOTNOPE_INTEGRITY" ∧
    (getSecurityStatus (loadNativeAddon m initialBridgeState).2).hasIntegrityError = true ∧
    isNativeAvailable m (loadNativeAddon m initialBridgeState).2 =
      (false, (loadNativeAddon m initialBridgeState).2) ∧
    ∀ nativeRes asyncCtx,
      getCallingPackageBackend m (loadNativeAddon m initialBridgeState).2
        nativeRes asyncCtx = (.jsFallback, (loadNativeAddon m initialBridgeState).2) := by
  have hverr : ∃ e, verifyAddonIntegrity m =
      { verified := false, warning := none, error := some e } := by
    rcases hbad with hb | ⟨hh, sz, hs, hns⟩
    · exact ⟨"Native addon integrity check failed!",
        by simp [verifyAddonIntegrity, hman, hread, haddon, hb]⟩
    · exact ⟨"Native addon size mismatch!",
        by simp [verifyAddonIntegrity, hman, hread, haddon, hh, hs, hns]⟩
  obtain ⟨e, hv⟩ := hverr
  have hload : loadNativeAddon m initialBridgeState =
      (false, { nativeLoaded := false, nativeAvailable := false,
                initializationError := some e, integrityVerified := false,
                integrityError := some e }) := by
    simp [loadNativeAddon, initialBridgeState, hex, hv]
  rw [hload]
  refine ⟨rfl, rfl, rfl, rfl, rfl, ?_, ?_⟩
  · simp [isNativeAvailable, loadNativeAddon]
  · intro nativeRes asyncCtx
    simp [getCallingPackageBackend, isNativeAvailable, loadNativeAddon]

/-- Witness for C3 at a concrete world with a hash mismatch. -/
theorem integrity_refusal_disables_native_witness :
    (loadNativeAddon
      { addonExists := true, manifestExists := true,
        manifestRead := .ok { hash := "aaaa", size := 10 },
        addonRead := .ok (), computedHash := "bbbb",
        statSize := .ok 10, requireOk := true } initialBridgeState).1 = false ∧
    (loadNativeAddon
      { addonExists := true, manifestExists := true,
        manifestRead := .ok { hash := "aaaa", size := 10 },
        addonRead := .ok (), computedHash := "bbbb",
        statSize := .ok 10, requireOk := true } initialBridgeState).2.nativeLoaded = false ∧
    (loadNativeAddon
      { addonExists := true, manifestExists := true,
        manifestRead := .ok { hash := "aaaa", size := 10 },
        addonRead := .ok (), computedHash := "bbbb",
        statSize := .ok 10, requireOk := true } initialBridgeState).2.nativeAvailable = false ∧
    statusIntegrityCode (loadNativeAddon
      { addonExists := true, manifestExists := true,
        manifestRead := .ok { hash := "aaaa", size := 10 },
        addonRead := .ok (), computedHash := "bbbb",
        statSize := .ok 10, requireOk := true } initialBridgeState).2 =
      some "ERR_DOTNOPE_INTEGRITY" ∧
    (getSecurityStatus (loadNativeAddon
      { addonExists := true, manifestExists := true,
        manifestRead := .ok { hash := "aaaa", size := 10 },
        addonRead := .ok (), computedHash := "bbbb",
        statSize := .ok 10, requireOk := true } initialBridgeState).2).hasIntegrityError = true ∧
    isNativeAvailable
      { addonExists := true, manifestExists := true,
        manifestRead := .ok { hash := "aaaa", size := 10 },
        addonRead := .ok (), computedHash := "bbbb",
        statSize := .ok 10, requireOk := true }
      (loadNativeAddon
        { addonExists := true, manifestExists := true,
          manifestRead := .ok { hash := "aaaa", size := 10 },
          addonRead := .ok (), computedHash := "bbbb",
          statSize := .ok 10, requireOk := true } initialBridgeState).2 =
      (false, (loadNativeAddon
        { addonExists := true, manifestExists := true,
          manifestRead := .ok { hash := "aaaa", size := 10 },
          addonRead := .ok (), computedHash := "bbbb",
          statSize := .ok 10, requireOk := true } initialBridgeState).2) ∧
    ∀ nativeRes asyncCtx,
      getCallingPackageBackend
        { addonExists := true, manifestExists := true,
          manifestRead := .ok { hash := "aaaa", size := 10 },
          addonRead := .ok (), computedHash := "bbbb",
          statSize := .ok 10, requireOk := true }
        (loadNativeAddon
          { addonExists := true, manifestExists := true,
            manifestRead := .ok { hash := "aaaa", size := 10 },
            addonRead := .ok (), computedHash := "bbbb",
            statSize := .ok 10, requireOk := true } initialBridgeState).2
        nativeRes asyncCtx =
        (.jsFallback, (loadNativeAddon
          { addonExists := true, manifestExists := true,
            manifestRead := .ok { hash := "aaaa", size := 10 },
            addonRead := .ok (), computedHash := "bbbb",
            statSize := .ok 10, requireOk := true } initialBridgeState).2) :=
  integrity_refusal_disables_native _ { hash := "aaaa", size := 10 }
    rfl rfl rfl rfl (Or.inl (by decide))

/-- C10: exceptions during verification are warning-only: if the
manifest exists but reading/parsing it — or reading the addon file — throws,
`verifyAddonIntegrity` reports a warning and no error, and `loadNativeAddon`
still loads the addon (when `require` succeeds); conversely an integrity
error arises only from an explicit hash or size mismatch. -/
theorem verify_exception_warns_only :
    (∀ m : NativeEnvModel, m.addonExists = true → m.manifestExists = true →
      m.requireOk = true →
      ((∃ msg, m.manifestRead = .throws msg) ∨
       (∃ manifest msg, m.manifestRead = .ok manifest ∧ m.addonRead = .throws msg)) →
      (verifyAddonIntegrity m).error = none ∧
      (verifyAddonIntegrity m).warning.isSome = true ∧
      (verifyAddonIntegrity m).verified = false ∧
      (loadNativeAddon m initialBridgeState).1 = true ∧
      (loadNativeAddon m initialBridgeState).2.nativeLoaded = true) ∧
    (∀ m : NativeEnvModel, (verifyAddonIntegrity m).error.isSome = true →
      m.manifestExists = true ∧
      ∃ manifest, m.manifestRead = .ok manifest ∧ m.addonRead = .ok () ∧
        (m.computedHash ≠ manifest.hash ∨
         ∃ sz, m.statSize = .ok sz ∧ sz ≠ manifest.size)) := by
  constructor
  · intro m hex hman hreq hthrow
    have hv : (verifyAddonIntegrity m).error = none ∧
        (verifyAddonIntegrity m).warning.isSome = true ∧
        (verifyAddonIntegrity m).verified = false := by
      rcases hthrow with ⟨msg, hm⟩ | ⟨manifest, msg, hm, ha⟩
      · simp [verifyAddonIntegrity, hman, hm]
      · simp [verifyAddonIntegrity, hman, hm, ha]
    refine ⟨hv.1, hv.2.1, hv.2.2, ?_, ?_⟩ <;>
      simp [loadNativeAddon, initialBridgeState, hex, hreq, hv.1]
  · intro m herr
    by_cases hman : m.manifestExists = true
    · cases hm : m.manifestRead with
      | throws msg => simp [verifyAddonIntegrity, hman, hm] at herr
      | ok manifest =>
        cases ha : m.addonRead with
        | throws msg => simp [verifyAddonIntegrity, hman, hm, ha] at herr
        | ok u =>
          cases u
          refine ⟨hman, manifest, rfl, rfl, ?_⟩
          by_cases hh : m.computedHash = manifest.hash
          · right
            cases hs : m.statSize with
            | throws msg => simp [verifyAddonIntegrity, hman, hm, ha, hh, hs] at herr
            | ok sz =>
              by_cases hsz : sz = manifest.size
              · simp [verifyAddonIntegrity, hman, hm, ha, hh, hs, hsz] at herr
              · exact ⟨sz, rfl, hsz⟩
          · exact Or.inl hh
    · simp [verifyAddonIntegrity, hman] at herr

/-- Witness for C10: a concrete manifest-read exception loads anyway, and a
concrete refusal exhibits its hash mismatch. -/
theorem verify_exception_warns_only_witness :
    ((verifyAddonIntegrity
      { addonExists := true, manifestExists := true,
        manifestRead := .throws "EACCES", addonRead := .ok (),
        computedHash := "h", statSize := .ok 7, requireOk := true }).error = none ∧
     (verifyAddonIntegrity
      { addonExists := true, manifestExists := true,
        manifestRead := .throws "EACCES", addonRead := .ok (),
        computedHash := "h", statSize := .ok 7, requireOk := true }).warning.isSome = true ∧
     (verifyAddonIntegrity
      { addonExists := true, manifestExists := true,
        manifestRead := .throws "EACCES", addonRead := .ok (),
        computedHash := "h", statSize := .ok 7, requireOk := true }).verified = false ∧
     (loadNativeAddon
      { addonExists := true, manifestExists := true,
        manifestRead := .throws "EACCES", addonRead := .ok (),
        computedHash := "h", statSize := .ok 7, requireOk := true }
      initialBridgeState).1 = true ∧
     (loadNativeAddon
      { addonExists := true, manifestExists := true,
        manifestRead := .throws "EACCES", addonRead := .ok (),
        computedHash := "h", statSize := .ok 7, requireOk := true }
      initialBridgeState).2.nativeLoaded = true) ∧
    (({ addonExists := true, manifestExists := true,
        manifestRead := .ok { hash := "cccc", size := 5 }, addonRead := .ok (),
        computedHash := "dddd", statSize := .ok 5, requireOk := true } :
          NativeEnvModel).manifestExists = true ∧
      ∃ manifest,
        ({ addonExists := true, manifestExists := true,
           manifestRead := .ok { hash := "cccc", size := 5 }, addonRead := .ok (),
           computedHash := "dddd", statSize := .ok 5, requireOk := true } :
             NativeEnvModel).manifestRead = .ok manifest ∧
        ({ addonExists := true, manifestExists := true,
           manifestRead := .ok { hash := "cccc", size := 5 }, addonRead := .ok (),
           computedHash := "dddd", statSize := .ok 5, requireOk := true } :
             NativeEnvModel).addonRead = .ok () ∧
        (({ addonExists := true, manifestExists := true,
            manifestRead := .ok { hash := "cccc", size := 5 }, addonRead := .ok (),
            computedHash := "dddd", statSize := .ok 5, requireOk := true } :
              NativeEnvModel).computedHash ≠ manifest.hash ∨
         ∃ sz, ({ addonExists := true, manifestExists := true,
                  manifestRead := .ok { hash := "cccc", size := 5 }, addonRead := .ok (),
                  computedHash := "dddd", statSize := .ok 5, requireOk := true } :
                    NativeEnvModel).statSize = .ok sz ∧ sz ≠ manifest.size)) :=
  ⟨verify_exception_warns_only.1 _ rfl rfl rfl (Or.inl ⟨"EACCES", rfl⟩),
   verify_exception_warns_only.2 _ (by decide)⟩

/-! ## Caller identification (lib/stack-parser.js)

Paths use the POSIX separator (`path.sep = '/'`); the embedding operates on
the `path.normalize`d path, as the source normalizes before matching. -/

/-- The characters of the `node_modules` path component. -/
def nmComp : List Char := "node_modules".data

/-- The search pattern `${path.sep}node_modules${path.sep}`
(lib/stack-parser.js:318). -/
def nmPat : List Char := ('/' :: nmComp) ++ ['/']

/-- The suffix of the string following the last occurrence of `pat`: the
recursive form of `s.slice(s.lastIndexOf(pat) + pat.length)`, `none` when
`lastIndexOf` is `-1` (`pat` is nonempty in every use; later occurrences
are preferred). -/
def findAfterLast (pat : List Char) : List Char → Option (List Char)
  | [] => none
  | c :: rest =>
    match findAfterLast pat rest with
    | some r => some r
    | none =>
      if pat.isPrefixOf (c :: rest) then some (List.drop pat.length (c :: rest))
      else none

/-- Embeds `s.includes(pat)` for a nonempty pattern. -/
def containsPat (pat s : List Char) : Bool := (findAfterLast pat s).isSome

/-- Embeds `s.split(sep)` for a one-character separator (JS `split` never returns
an empty array: splitting the empty string yields `[""]`). -/
def splitOnChar (sep : Char) : List Char → List (List Char)
  | [] => [[]]
  | c :: rest =>
    let r := splitOnChar sep rest
    if c = sep then [] :: r
    else
      match r with
      | [] => [[c]]
      | h :: t => (c :: h) :: t

/-- Join path components with the POSIX separator (left inverse of
`splitOnChar '/'`). -/
def joinPath : List (List Char) → List Char
  | [] => []
  | [c] => c
  | c :: cs => c ++ '/' :: joinPath cs

/-- The identity `'__main__'` of code outside `node_modules`. -/
def mainIdent : List Char := "__main__".data

/-- Embeds `extractPackageName` (lib/stack-parser.js:308-345), on the normalized
file path.  The memoizing `packageCache` is pure memoization of this
function and not modelled.  For a scoped package with no second component,
the template literal interpolates the JS string `"undefined"`. -/
def extractPackageName (filePath : List Char) : List Char :=
  match findAfterLast nmPat filePath with
  | none => mainIdent
  | some afterNM =>
    match splitOnChar '/' afterNM with
    | [] => []
    | p0 :: rest =>
      if p0.head? = some '@' then p0 ++ '/' :: rest.headD "undefined".data
      else p0

/-- String-typed wrapper of `extractPackageName`. -/
def extractPackageNameStr (filePath : String) : String :=
  ⟨extractPackageName filePath.data⟩

/-! ### Component-level reading of `extractPackageName` -/

/-- Scan for the last `node_modules` among components that are all preceded
by a separator, requiring a following component (the separator after
`node_modules`); return the components after it. -/
def tailScanNM : List (List Char) → Option (List (List Char))
  | [] => none
  | c :: rest =>
    match tailScanNM rest with
    | some r => some r
    | none => if c = nmComp then (if rest.isEmpty then none else some rest) else none

/-- The components after the last separator-enclosed `node_modules`
component of a full component list (the head component is not preceded by a
separator, so only tail positions count). -/
def nmSplit : List (List Char) → Option (List (List Char))
  | [] => none
  | _ :: rest => tailScanNM rest

/-- The `@scope/name` join applied to the components following
`node_modules`. -/
def scopeJoin : List (List Char) → List Char
  | [] => []
  | p0 :: rest =>
    if p0.head? = some '@' then p0 ++ '/' :: rest.headD "undefined".data
    else p0

/-- The component-level specification of `extractPackageName`: the package
is named from the components after the last separator-enclosed
`node_modules` component; without one, the identity is `__main__`. -/
def specPackageName (comps : List (List Char)) : List Char :=
  match nmSplit comps with
  | none => mainIdent
  | some after => scopeJoin after

/-- The claim's own reading: the components after the last `node_modules`
component wherever it occurs, with no separator requirement. -/
def afterLastNMAll : List (List Char) → Option (List (List Char))
  | [] => none
  | c :: rest =>
    match afterLastNMAll rest with
    | some r => some r
    | none => if c = nmComp then some rest else none

/-- Claim C5 as literally stated, at one path: if the path contains a
`node_modules` segment the package name comes from the component after the
last one (scope-joined), otherwise it is `__main__`. -/
def c5ClaimAt (s : List Char) : Prop :=
  extractPackageName s =
    match afterLastNMAll (splitOnChar '/' s) with
    | none => mainIdent
    | some after => scopeJoin after

/-! ### Bridge between the character level and the component level -/

theorem nmPat_eq : nmPat = '/' :: (nmComp ++ ['/']) := rfl

theorem findAfterLast_cons (pat : List Char) (c : Char) (rest : List Char) :
    findAfterLast pat (c :: rest) =
      match findAfterLast pat rest with
      | some r => some r
      | none =>
        if pat.isPrefixOf (c :: rest) then some (List.drop pat.length (c :: rest))
        else none := rfl

theorem tailScanNM_cons (c : List Char) (rest : List (List Char)) :
    tailScanNM (c :: rest) =
      match tailScanNM rest with
      | some r => some r
      | none => if c = nmComp then (if rest.isEmpty then none else some rest) else none :=
  rfl

theorem nmComp_sep_free : ∀ ch ∈ nmComp, ch ≠ '/' := by decide

theorem findAfterLast_cons_ne (ch : Char) (s : List Char) (hch : ch ≠ '/') :
    findAfterLast nmPat (ch :: s) = findAfterLast nmPat s := by
  simp only [findAfterLast]
  cases h : findAfterLast nmPat s with
  | some r => rfl
  | none =>
    have hp : ¬ nmPat <+: (ch :: s) := by
      rw [nmPat_eq, List.cons_prefix_cons]
      rintro ⟨he, -⟩
      exact hch he.symm
    simp [hp]

theorem findAfterLast_append_free (c : List Char) (s : List Char)
    (hf : ∀ ch ∈ c, ch ≠ '/') :
    findAfterLast nmPat (c ++ s) = findAfterLast nmPat s := by
  induction c with
  | nil => rfl
  | cons ch c ih =>
    rw [List.cons_append, findAfterLast_cons_ne ch _ (hf ch (by simp)),
      ih (fun x hx => hf x (by simp [hx]))]

theorem nmPat_not_prefix_sep_free (c : List Char) (hf : ∀ ch ∈ c, ch ≠ '/') :
    ¬ nmPat <+: ('/' :: c) := by
  rw [nmPat_eq, List.cons_prefix_cons]
  rintro ⟨-, hpre⟩
  exact hf '/' (hpre.subset (by simp)) rfl

theorem prefix_through_sep (q : List Char) : ∀ (c : List Char) (w v : List Char),
    (∀ ch ∈ q, ch ≠ '/') → (∀ ch ∈ c, ch ≠ '/') →
    ((q ++ '/' :: w) <+: (c ++ '/' :: v) ↔ q = c ∧ w <+: v) := by
  induction q with
  | nil =>
    intro c w v _ hc
    cases c with
    | nil => simp
    | cons b c' =>
      simp only [List.nil_append, List.cons_append, List.cons_prefix_cons]
      constructor
      · rintro ⟨he, -⟩
        exact absurd he.symm (hc b (by simp))
      · rintro ⟨he, -⟩
        exact absurd he (by simp)
  | cons a q' ih =>
    intro c w v hq hc
    cases c with
    | nil =>
      simp only [List.cons_append, List.nil_append, List.cons_prefix_cons]
      constructor
      · rintro ⟨he, -⟩
        exact absurd he (hq a (by simp))
      · rintro ⟨he, -⟩
        exact absurd he (by simp)
    | cons b c' =>
      simp only [List.cons_append, List.cons_prefix_cons]
      rw [ih c' w v (fun x hx => hq x (by simp [hx])) (fun x hx => hc x (by simp [hx]))]
      constructor
      · rintro ⟨he, he', hw⟩
        exact ⟨by rw [he, he'], hw⟩
      · rintro ⟨he, hw⟩
        injection he with h1 h2
        exact ⟨h1, h2, hw⟩

theorem nmPat_drop_join (v : List Char) :
    List.drop nmPat.length ('/' :: (nmComp ++ '/' :: v)) = v := by
  have h : ('/' : Char) :: (nmComp ++ '/' :: v) = nmPat ++ v := by
    rw [nmPat_eq]
    simp
  rw [h, List.drop_left]

theorem joinPath_cons (c : List Char) (cs : List (List Char)) (h : cs ≠ []) :
    joinPath (c :: cs) = c ++ '/' :: joinPath cs := by
  cases cs with
  | nil => exact absurd rfl h
  | cons d ds => rfl

theorem tailScanNM_some {cs : List (List Char)} {r : List (List Char)}
    (h : tailScanNM cs = some r) : r ≠ [] ∧ r <:+ cs := by
  induction cs with
  | nil => simp [tailScanNM] at h
  | cons c rest ih =>
    simp only [tailScanNM] at h
    cases ht : tailScanNM rest with
    | some r' =>
      rw [ht] at h
      obtain rfl : r' = r := by simpa using h
      obtain ⟨hne, hsuf⟩ := ih ht
      exact ⟨hne, hsuf.trans (List.suffix_cons c rest)⟩
    | none =>
      rw [ht] at h
      by_cases hc : c = nmComp
      · rw [if_pos hc] at h
        by_cases he : rest.isEmpty
        · simp [he] at h
        · rw [if_neg he] at h
          obtain rfl : rest = r := by simpa using h
          refine ⟨fun hnil => ?_, List.suffix_cons _ _⟩
          subst hnil
          simp at he
      · rw [if_neg hc] at h
        simp at h

theorem nmSplit_some {comps r : List (List Char)} (h : nmSplit comps = some r) :
    r ≠ [] ∧ ∀ x ∈ r, x ∈ comps := by
  cases comps with
  | nil => simp [nmSplit] at h
  | cons c rest =>
    obtain ⟨hne, hsuf⟩ := tailScanNM_some (show tailScanNM rest = some r from h)
    exact ⟨hne, fun x hx => List.mem_cons_of_mem c (hsuf.subset hx)⟩

theorem findAfterLast_sep_join (cs : List (List Char)) (hne : cs ≠ [])
    (hf : ∀ c ∈ cs, ∀ ch ∈ c, ch ≠ '/') :
    findAfterLast nmPat ('/' :: joinPath cs) = (tailScanNM cs).map joinPath := by
  induction cs with
  | nil => exact absurd rfl hne
  | cons c cs ih =>
    have hfc : ∀ ch ∈ c, ch ≠ '/' := hf c (by simp)
    cases cs with
    | nil =>
      have h1 : findAfterLast nmPat c = none := by
        have h := findAfterLast_append_free c [] hfc
        simpa using h
      have h2 : tailScanNM [c] = none := by
        by_cases hc : c = nmComp <;> simp [tailScanNM, hc]
      have hp : ¬ nmPat <+: ('/' :: c) := nmPat_not_prefix_sep_free c hfc
      simp only [joinPath, findAfterLast, h1, h2, Option.map_none']
      simp [hp]
    | cons d ds =>
      have hds : (d :: ds) ≠ ([] : List (List Char)) := by simp
      have hftail : ∀ x ∈ d :: ds, ∀ ch ∈ x, ch ≠ '/' := fun x hx => hf x (by simp [hx])
      rw [joinPath_cons c (d :: ds) hds, findAfterLast_cons,
        findAfterLast_append_free c _ hfc, ih hds hftail]
      cases ht : tailScanNM (d :: ds) with
      | some r =>
        rw [tailScanNM_cons c (d :: ds), ht]
        simp
      | none =>
        rw [tailScanNM_cons c (d :: ds), ht]
        simp only [Option.map_none']
        by_cases hc : c = nmComp
        · subst hc
          have hpre : nmPat <+: ('/' :: (nmComp ++ '/' :: joinPath (d :: ds))) := by
            rw [nmPat_eq, List.cons_prefix_cons]
            refine ⟨rfl, ?_⟩
            have h : nmComp ++ '/' :: joinPath (d :: ds) =
                (nmComp ++ ['/']) ++ joinPath (d :: ds) := by simp
            rw [h]
            exact List.prefix_append _ _
          rw [if_pos (Iff.mpr List.isPrefixOf_iff_prefix hpre), nmPat_drop_join]
          simp
        · have hnp : ¬ nmPat <+: ('/' :: (c ++ '/' :: joinPath (d :: ds))) := by
            rw [nmPat_eq, List.cons_prefix_cons]
            rintro ⟨-, hpre⟩
            have h : nmComp ++ '/' :: ([] : List Char) <+: c ++ '/' :: joinPath (d :: ds) := by
              simpa using hpre
            rw [prefix_through_sep nmComp c [] (joinPath (d :: ds))
              nmComp_sep_free hfc] at h
            exact hc h.1.symm
          rw [if_neg (fun hb => hnp (Iff.mp List.isPrefixOf_iff_prefix hb))]
          simp [hc]

theorem findAfterLast_join (comps : List (List Char))
    (hf : ∀ c ∈ comps, ∀ ch ∈ c, ch ≠ '/') :
    findAfterLast nmPat (joinPath comps) = (nmSplit comps).map joinPath := by
  cases comps with
  | nil => rfl
  | cons c cs =>
    have hfc : ∀ ch ∈ c, ch ≠ '/' := hf c (by simp)
    cases cs with
    | nil =>
      have h := findAfterLast_append_free c [] hfc
      simp only [joinPath]
      simpa [nmSplit, tailScanNM] using h
    | cons d ds =>
      rw [joinPath_cons c (d :: ds) (by simp),
        findAfterLast_append_free c _ hfc,
        findAfterLast_sep_join (d :: ds) (by simp) (fun x hx => hf x (by simp [hx]))]
      rfl

theorem splitOnChar_cons (sep c : Char) (rest : List Char) :
    splitOnChar sep (c :: rest) =
      if c = sep then [] :: splitOnChar sep rest
      else
        match splitOnChar sep rest with
        | [] => [[c]]
        | h :: t => (c :: h) :: t := rfl

theorem splitOnChar_ne_nil (sep : Char) (s : List Char) : splitOnChar sep s ≠ [] := by
  cases s with
  | nil => simp [splitOnChar]
  | cons c rest =>
    rw [splitOnChar_cons]
    by_cases h : c = sep
    · simp [h]
    · rw [if_neg h]
      cases hr : splitOnChar sep rest <;> simp

theorem joinPath_splitOnChar (s : List Char) : joinPath (splitOnChar '/' s) = s := by
  induction s with
  | nil => rfl
  | cons c rest ih =>
    rw [splitOnChar_cons]
    by_cases h : c = '/'
    · subst h
      rw [if_pos rfl, joinPath_cons _ _ (splitOnChar_ne_nil '/' rest), ih]
      rfl
    · rw [if_neg h]
      cases hr : splitOnChar '/' rest with
      | nil => exact absurd hr (splitOnChar_ne_nil '/' rest)
      | cons hd t =>
        rw [hr] at ih
        cases t with
        | nil =>
          simp only [joinPath] at ih ⊢
          rw [ih]
        | cons t0 ts =>
          rw [joinPath_cons _ _ (by simp), List.cons_append,
            ← joinPath_cons hd (t0 :: ts) (by simp), ih]

theorem splitOnChar_sep_free (sep : Char) (s : List Char) :
    ∀ c ∈ splitOnChar sep s, ∀ ch ∈ c, ch ≠ sep := by
  induction s with
  | nil =>
    intro c hc
    simp [splitOnChar] at hc
    subst hc
    simp
  | cons a rest ih =>
    intro c hc
    rw [splitOnChar_cons] at hc
    by_cases h : a = sep
    · rw [if_pos h] at hc
      rcases List.mem_cons.mp hc with rfl | hc'
      · simp
      · exact ih c hc'
    · rw [if_neg h] at hc
      cases hr : splitOnChar sep rest with
      | nil => exact absurd hr (splitOnChar_ne_nil sep rest)
      | cons hd t =>
        rw [hr] at hc
        rcases List.mem_cons.mp hc with rfl | hc'
        · intro ch hch
          rcases List.mem_cons.mp hch with rfl | hch'
          · exact h
          · exact ih hd (by rw [hr]; exact List.mem_cons_self hd t) ch hch'
        · exact ih c (by rw [hr]; exact List.mem_cons_of_mem hd hc')

theorem splitOnChar_free (c : List Char) (hf : ∀ ch ∈ c, ch ≠ '/') :
    splitOnChar '/' c = [c] := by
  induction c with
  | nil => rfl
  | cons a rest ih =>
    rw [splitOnChar_cons, if_neg (hf a (by simp)),
      ih (fun x hx => hf x (by simp [hx]))]

theorem splitOnChar_append_sep (c t : List Char) (hf : ∀ ch ∈ c, ch ≠ '/') :
    splitOnChar '/' (c ++ '/' :: t) = c :: splitOnChar '/' t := by
  induction c with
  | nil =>
    rw [List.nil_append, splitOnChar_cons, if_pos rfl]
  | cons a rest ih =>
    rw [List.cons_append, splitOnChar_cons, if_neg (hf a (by simp)),
      ih (fun x hx => hf x (by simp [hx]))]

theorem splitOnChar_joinPath (a : List (List Char)) (hne : a ≠ [])
    (hf : ∀ c ∈ a, ∀ ch ∈ c, ch ≠ '/') :
    splitOnChar '/' (joinPath a) = a := by
  induction a with
  | nil => exact absurd rfl hne
  | cons c cs ih =>
    cases cs with
    | nil => exact splitOnChar_free c (hf c (by simp))
    | cons d ds =>
      rw [joinPath_cons c (d :: ds) (by simp),
        splitOnChar_append_sep c _ (hf c (by simp)),
        ih (by simp) (fun x hx => hf x (by simp [hx]))]

theorem extractPackageName_join (comps : List (List Char))
    (hf : ∀ c ∈ comps, ∀ ch ∈ c, ch ≠ '/') :
    extractPackageName (joinPath comps) = specPackageName comps := by
  unfold extractPackageName specPackageName
  rw [findAfterLast_join comps hf]
  cases h : nmSplit comps with
  | none => rfl
  | some after =>
    obtain ⟨hne, hsub⟩ := nmSplit_some h
    have hfr : ∀ c ∈ after, ∀ ch ∈ c, ch ≠ '/' := fun c hc => hf c (hsub c hc)
    simp only [Option.map_some']
    rw [splitOnChar_joinPath after hne hfr]
    cases after with
    | nil => exact absurd rfl hne
    | cons p0 rest => rfl

/-- C5 (amended): for every (normalized) stack-frame file path: when the
path contains a `node_modules` component that is both preceded and followed
by the separator, the caller's package name is derived from the components
after the last such occurrence — the first component, or `@scope/name` when
it begins with `@` (the JS string `"undefined"` standing in for a missing
scoped name); otherwise — including relative paths that begin with the
`node_modules` component and paths whose final component is `node_modules` —
the identity is `__main__`. -/
theorem extractPackageName_spec (s : List Char) :
    extractPackageName s = specPackageName (splitOnChar '/' s) := by
  have h := extractPackageName_join (splitOnChar '/' s) (splitOnChar_sep_free '/' s)
  rwa [joinPath_splitOnChar s] at h

/-- C5 (counterexample): the claim as stated fails at the relative path
`node_modules/foo/index.js`: the path contains a `node_modules` segment
whose following component is `foo`, yet `extractPackageName` — which
requires a preceding separator, via `lastIndexOf('/node_modules/')` —
yields `__main__`. -/
theorem extractPackageName_claim_false :
    ¬ c5ClaimAt "node_modules/foo/index.js".data ∧
    extractPackageName "node_modules/foo/index.js".data = mainIdent ∧
    afterLastNMAll (splitOnChar '/' "node_modules/foo/index.js".data) =
      some ["foo".data, "index.js".data] := by
  refine ⟨?_, by decide, by decide⟩
  unfold c5ClaimAt
  decide

/-! ### Stack frames, eval detection, and the fallback capture routines -/

/-- A V8 `CallSite` as consumed by the stack parser (`getFileName()`,
`getFunctionName()`, `isEval()`, `getEvalOrigin()`, `isConstructor()`,
`getLineNumber()`, `getColumnNumber()`; `none` models
`null`/`undefined`). -/
structure StackFrame where
  fileName : Option String := none
  functionName : Option String := none
  isEvalFlag : Bool := false
  evalOrigin : Option String := none
  isConstructorFlag : Bool := false
  lineNumber : Option Nat := none
  columnNumber : Option Nat := none
deriving DecidableEq, Repr

/-- JS `x || d` for an optional string (the empty string is falsy). -/
def orElseStr (o : Option String) (d : String) : String :=
  match o with
  | some s => if s = "" then d else s
  | none => d

/-- Embeds `EVAL_FUNCTION_NAMES` (lib/stack-parser.js:68). -/
def EVAL_FUNCTION_NAMES : List String := ["eval", "Function", "anonymous"]

/-- Embeds `EVAL_FILENAME_PATTERNS` (lib/stack-parser.js:69); every regex is
anchored at the start of the file name. -/
def EVAL_FILENAME_PATTERNS : List String :=
  ["eval at", "[eval]", "<anonymous>", "evalmachine."]

/-- Embeds `s.includes(pat)`. -/
def strContains (s pat : String) : Bool := containsPat pat.data s.data

/-- Embeds `detectEvalContext(frame)` (lib/stack-parser.js:128-165): V8's `isEval`,
a truthy eval origin, an eval-like function name, an eval-like file name
pattern, or a missing file name with a named non-anonymous function. -/
def detectEvalContext (f : StackFrame) : Bool :=
  f.isEvalFlag ||
  (match f.evalOrigin with
   | some o => o != ""
   | none => false) ||
  (let funcName := orElseStr f.functionName ""
   EVAL_FUNCTION_NAMES.any (fun n => funcName == n || strContains funcName n)) ||
  (let fileName := orElseStr f.fileName ""
   EVAL_FILENAME_PATTERNS.any (fun p => p.data.isPrefixOf fileName.data)) ||
  (orElseStr f.fileName "" == "" && orElseStr f.functionName "" != "" &&
   orElseStr f.functionName "" != "<anonymous>")

/-- Embeds `hasEvalInStack(stack)` (lib/stack-parser.js:172-179). -/
def hasEvalInStack (stack : List StackFrame) : Bool :=
  stack.any detectEvalContext

/-- Embeds `INTERNAL_PATHS` (lib/stack-parser.js:72-78). -/
def INTERNAL_PATHS : List String :=
  ["lib/proxy.js", "lib/stack-parser.js", "lib/dotnope.js",
   "lib/config-loader.js", "lib/dependency-resolver.js"]

/-- Embeds `s.endsWith(suf)`. -/
def strEndsWith (s suf : String) : Bool := suf.data.isSuffixOf s.data

/-- POSIX `path.dirname` on a path without trailing separators: drop the
final component; `.` when there is no separator, `/` when what remains is
the root. -/
def pathDirname (s : String) : String :=
  match (splitOnChar '/' s.data).dropLast with
  | [] => "."
  | [[]] => "/"
  | pre => ⟨joinPath pre⟩

/-- Embeds `isInternalFile(filePath)` (lib/stack-parser.js:255-301), on the
normalized path.  `readPkgName` is the filesystem oracle of the
development-tree check: the `name` field of the `package.json` at the given
path, `none` when reading or parsing throws. -/
def isInternalFile (readPkgName : String → Option String) (filePath : String) : Bool :=
  let normalized := filePath
  if INTERNAL_PATHS.any (fun ip =>
      strContains normalized "node_modules/dotnope/" && strEndsWith normalized ip) then
    true
  else if strContains normalized "node_modules/dotnope/" &&
      (strEndsWith normalized "dotnope/index.js" ||
       strEndsWith normalized "dotnope/index.mjs") then
    true
  else
    let dirName := pathDirname normalized
    if strEndsWith dirName "/lib" && !strContains normalized "node_modules" &&
        INTERNAL_PATHS.any (fun p => strEndsWith normalized p) then
      match readPkgName (pathDirname dirName ++ "/package.json") with
      | some nm => nm == "dotnope"
      | none => false
    else false

/-- The caller-info record `getCallingPackageJS` returns. -/
structure CallerInfo where
  packageName : String
  fileName : String
  lineNumber : Option Nat
  columnNumber : Option Nat
  functionName : String
  isEvalInfo : Bool
  isConstructorInfo : Bool
deriving DecidableEq, Repr

/-- The frame walk of `getCallingPackageJS` (lib/stack-parser.js:209-243):
frames without a truthy file name, `node:`/`internal/` modules, and
dotnope's own files are skipped; the first remaining frame names the
caller. -/
def walkFrames (readPkgName : String → Option String) (evalInStack : Bool) :
    List StackFrame → Option CallerInfo
  | [] => none
  | f :: rest =>
    match f.fileName with
    | none => walkFrames readPkgName evalInStack rest
    | some fileName =>
      if fileName = "" then walkFrames readPkgName evalInStack rest
      else if "node:".data.isPrefixOf fileName.data ||
          "internal/".data.isPrefixOf fileName.data then
        walkFrames readPkgName evalInStack rest
      else if isInternalFile readPkgName fileName then
        walkFrames readPkgName evalInStack rest
      else
        some { packageName := extractPackageNameStr fileName
               fileName := fileName
               lineNumber := f.lineNumber
               columnNumber := f.columnNumber
               functionName := orElseStr f.functionName "<anonymous>"
               isEvalInfo := detectEvalContext f || evalInStack
               isConstructorInfo := f.isConstructorFlag }

/-- The value of `Error.prepareStackTrace`: V8's default (`undefined`), the
temporary raw identity hook `(err, stack) => stack`, or any other
user-installed hook. -/
inductive PrepHook
  | undef
  | rawIdentity
  | other (id : Nat)
deriving DecidableEq, Repr

/-- The globals the capture routines save and restore:
`Error.prepareStackTrace` and `Error.stackTraceLimit`. -/
structure ErrorGlobals where
  prepareStackTrace : PrepHook
  stackTraceLimit : Nat
deriving DecidableEq, Repr

/-- A throw during stack capture (opaque error identity). -/
inductive CaptureErr
  | thrown (id : Nat)
deriving DecidableEq, Repr

/-- What evaluating `err.stack` under the raw identity hook yields: the
frame array, or a throw. -/
abbrev CaptureOutcome := Except CaptureErr (List StackFrame)

/-- A computation over the `Error` globals that may throw; the globals
survive a throw (JS state is not rolled back by exceptions). -/
abbrev StackM (α : Type) := ErrorGlobals → Except CaptureErr α × ErrorGlobals

/-- Embeds `const saved… = Error.…; try { body } finally
{ Error.prepareStackTrace = savedPrepareStackTrace; Error.stackTraceLimit =
savedStackTraceLimit }`: the saved values are read before the body runs and
written back whatever the body's outcome. -/
def savingGlobals {α : Type} (body : StackM α) : StackM α :=
  fun g =>
    let saved₁ := g.prepareStackTrace
    let saved₂ := g.stackTraceLimit
    let (r, g') := body g
    (r, { g' with prepareStackTrace := saved₁, stackTraceLimit := saved₂ })

/-- Embeds `getCallingPackageJS(skipFrames)` (lib/stack-parser.js:187-248): inside
the `try`, sets `stackTraceLimit := 30`, installs the raw identity
`prepareStackTrace` hook, captures the stack (`capture` is the oracle for
`err.stack`), returns `null` for a missing/empty stack, and otherwise walks
the frames from `skipFrames` on; the `finally` restores both globals. -/
def getCallingPackageJS (skipFrames : Nat) (capture : CaptureOutcome)
    (readPkgName : String → Option String) : StackM (Option CallerInfo) :=
  savingGlobals (fun _ =>
    let g₁ : ErrorGlobals := { prepareStackTrace := .rawIdentity, stackTraceLimit := 30 }
    match capture with
    | .error e => (.error e, g₁)
    | .ok stack =>
      if stack.isEmpty then (.ok none, g₁)
      else
        (.ok (walkFrames readPkgName (hasEvalInStack stack) (stack.drop skipFrames)), g₁))

/-- One output line of `getFormattedStack` (lib/stack-parser.js:374-380); a
line number of `0` is falsy in JS and prints as `?`. -/
def formatFrameLine (f : StackFrame) : String :=
  "    at " ++ orElseStr f.functionName "<anonymous>" ++ " (" ++
    orElseStr f.fileName "<unknown>" ++ ":" ++
    (match f.lineNumber with
     | some n => if n = 0 then "?" else toString n
     | none => "?") ++ ")"

/-- Embeds `getFormattedStack(skipFrames)` (lib/stack-parser.js:359-387): the same
`try/finally` discipline with `stackTraceLimit := 15`, formatting at most
ten frames starting at `skipFrames`. -/
def getFormattedStack (skipFrames : Nat) (capture : CaptureOutcome) : StackM String :=
  savingGlobals (fun _ =>
    let g₁ : ErrorGlobals := { prepareStackTrace := .rawIdentity, stackTraceLimit := 15 }
    match capture with
    | .error e => (.error e, g₁)
    | .ok stack =>
      (.ok (String.intercalate "\n"
        (((stack.take (min stack.length (skipFrames + 10))).drop skipFrames).map
          formatFrameLine)), g₁))

/-- C4: both fallback capture routines restore `Error.prepareStackTrace`
and `Error.stackTraceLimit` to their pre-call values, whether the capture
finishes normally or throws: the output globals equal the input globals for
every input, so the temporary raw identity hook is never left installed
after the call. -/
theorem capture_restores_globals (skipFrames : Nat) (capture : CaptureOutcome)
    (readPkgName : String → Option String) (g : ErrorGlobals) :
    (getCallingPackageJS skipFrames capture readPkgName g).2 = g ∧
    (getFormattedStack skipFrames capture g).2 = g := by
  constructor
  · unfold getCallingPackageJS savingGlobals
    cases capture <;> rfl
  · unfold getFormattedStack savingGlobals
    cases capture <;> rfl

end Dotnope
